import Mathlib

/-!
Verification of the reconciliation, pagination, folder-normalization and
edit-orchestration core of the `adaptavist` client library.

Python strings are modelled as `List Char` (so Python's substring test
`value in content` becomes `List.IsInfix`, written with the operator
`<:+:`), Python lists of strings as `List (List Char)`, Python `dict`
payloads as structures with `Option`-valued fields (a `none` field models
an absent key / JSON `null`), and the remote transport as an environment
record providing the outcome of each remote call.  Each remote-mutation
call the editors perform (folder creation, PUT) is recorded in an ordered
trace list.
-/

/-- Model of a Python string: a list of characters. -/
abbrev Str := List Char

/-- The reserved sentinel marker `"-"` selecting replacement semantics. -/
def sentinel : Str := "-".toList

/-- The fixed separator `"<br>"` used by the multiline-field reconciler. -/
def brSep : Str := "<br>".toList

/-- One step of `update_list`'s loop (adaptavist.py lines 1607-1611):
`"-"` clears the accumulated list, a non-empty value not yet present is
appended, anything else is skipped. -/
def updStep (acc : List Str) (value : Str) : List Str :=
  if value = sentinel then []
  else if value ≠ [] ∧ value ∉ acc then acc ++ [value]
  else acc

/-- `update_list` (adaptavist.py lines 1603-1612) for a list-valued delta.
`new_content = content[:] if content else []` is the identity on the
modelled value, so the fold starts from `content`.  (The branch splitting
a comma-separated *string* delta is selected by the Python argument's
runtime type and is outside the list-typed model.) -/
def update_list (content : List Str) (new_values : List Str) : List Str :=
  new_values.foldl updStep content

/-- One step of `update_multiline_field`'s loop (adaptavist.py lines
1619-1623): `"-"` clears the content, a non-empty value that is not a
substring of the accumulated content is appended behind a `"<br>"`
separator (or becomes the whole content if it was empty). -/
def mlStep (acc : Str) (value : Str) : Str :=
  if value = sentinel then []
  else if value ≠ [] ∧ ¬ value <:+: acc then
    (if acc = [] then value else acc ++ brSep ++ value)
  else acc

/-- `update_multiline_field` (adaptavist.py lines 1615-1624) for a
list-valued delta; `content[:] if content else ""` is the identity on the
modelled string. -/
def update_multiline_field (content : Str) (new_values : List Str) : Str :=
  new_values.foldl mlStep content

/-- Keep the first occurrence of every element, dropping later
duplicates.  Used to state closed forms of the fold-based reconcilers. -/
def dedupKeepFirst : List Str → List Str
  | [] => []
  | a :: l => a :: dedupKeepFirst (l.filter (fun b => b ≠ a))
termination_by l => l.length
decreasing_by
  simp only [List.length_cons]
  exact Nat.lt_succ_of_le (l.length_filter_le _)

theorem dedupKeepFirst_nil : dedupKeepFirst [] = [] := by
  simp [dedupKeepFirst]

theorem dedupKeepFirst_cons (a : Str) (l : List Str) :
    dedupKeepFirst (a :: l) = a :: dedupKeepFirst (l.filter (fun b => b ≠ a)) := by
  simp [dedupKeepFirst]

/-- Bool-valued filter used to characterise the additive branch of
`update_list`: keep a delta value iff it is non-empty and not already in
`acc`. -/
def keepNew (acc : List Str) (v : Str) : Bool := decide (v ≠ [] ∧ v ∉ acc)

theorem dedupKeepFirst_mem (v : Str) :
    ∀ l : List Str, v ∈ dedupKeepFirst l ↔ v ∈ l := by
  intro l
  induction l using dedupKeepFirst.induct with
  | case1 => simp [dedupKeepFirst_nil]
  | case2 a t ih =>
    rw [dedupKeepFirst_cons]
    by_cases hva : v = a
    · subst hva; simp
    · simp only [List.mem_cons, ih, List.mem_filter, hva, false_or,
        ne_eq, decide_eq_true_eq]
      tauto

theorem dedupKeepFirst_nodup : ∀ l : List Str, (dedupKeepFirst l).Nodup := by
  intro l
  induction l using dedupKeepFirst.induct with
  | case1 => simp [dedupKeepFirst_nil]
  | case2 a t ih =>
    rw [dedupKeepFirst_cons]
    refine List.nodup_cons.mpr ⟨fun h => ?_, ih⟩
    have hmem := (dedupKeepFirst_mem a _).mp h
    rw [List.mem_filter] at hmem
    simp at hmem

theorem dedupKeepFirst_sublist : ∀ l : List Str, List.Sublist (dedupKeepFirst l) l := by
  intro l
  induction l using dedupKeepFirst.induct with
  | case1 => simp [dedupKeepFirst_nil]
  | case2 a t ih =>
    rw [dedupKeepFirst_cons]
    exact (ih.trans (List.filter_sublist t)).cons₂ a

theorem dedupKeepFirst_of_nodup : ∀ l : List Str, l.Nodup → dedupKeepFirst l = l := by
  intro l
  induction l using dedupKeepFirst.induct with
  | case1 => simp [dedupKeepFirst_nil]
  | case2 a t ih =>
    intro hl
    rw [dedupKeepFirst_cons]
    have hf : t.filter (fun b => b ≠ a) = t := by
      refine List.filter_eq_self.mpr (fun b hb => ?_)
      simp only [ne_eq, decide_eq_true_eq]
      exact fun hba => (List.nodup_cons.mp hl).1 (hba ▸ hb)
    rw [hf] at ih ⊢
    rw [ih (List.nodup_cons.mp hl).2]

/-- The additive loop of `update_list`, characterised in closed form:
starting from `acc`, a sentinel-free delta appends its non-empty values
not already present, first occurrences only. -/
theorem foldl_updStep_eq (l : List Str) :
    ∀ acc : List Str, sentinel ∉ l →
      l.foldl updStep acc = acc ++ dedupKeepFirst (l.filter (keepNew acc)) := by
  induction l with
  | nil => intro acc _; simp [dedupKeepFirst_nil]
  | cons v t ih =>
    intro acc hs
    have hvs : v ≠ sentinel := fun h => hs (h ▸ List.mem_cons_self v t)
    have hts : sentinel ∉ t := fun h => hs (List.mem_cons_of_mem _ h)
    by_cases hv : v ≠ [] ∧ v ∉ acc
    · have hstep : updStep acc v = acc ++ [v] := by
        simp [updStep, hvs, hv]
      have hkeep : keepNew acc v = true := by
        simp [keepNew, hv.1, hv.2]
      have hfilter : t.filter (keepNew (acc ++ [v]))
          = (t.filter (keepNew acc)).filter (fun b => b ≠ v) := by
        rw [List.filter_filter]
        refine List.filter_congr (fun a _ => ?_)
        simp only [keepNew, ne_eq, List.mem_append, List.mem_singleton,
          decide_eq_true_eq, Bool.and_eq_true, decide_eq_true_eq]
        rw [Bool.eq_iff_iff]
        simp only [decide_eq_true_eq, Bool.and_eq_true]
        tauto
      calc (v :: t).foldl updStep acc
          = t.foldl updStep (acc ++ [v]) := by rw [List.foldl_cons, hstep]
        _ = (acc ++ [v]) ++ dedupKeepFirst (t.filter (keepNew (acc ++ [v]))) :=
            ih (acc ++ [v]) hts
        _ = acc ++ dedupKeepFirst ((v :: t).filter (keepNew acc)) := by
            rw [hfilter, List.filter_cons_of_pos hkeep, dedupKeepFirst_cons,
              List.append_assoc]
            rfl
    · have hstep : updStep acc v = acc := by
        simp only [updStep, if_neg hvs, ite_eq_right_iff]
        intro h; exact absurd h hv
      have hkeep : keepNew acc v = false := by
        simpa [keepNew] using hv
      calc (v :: t).foldl updStep acc
          = t.foldl updStep acc := by rw [List.foldl_cons, hstep]
        _ = acc ++ dedupKeepFirst (t.filter (keepNew acc)) := ih acc hts
        _ = acc ++ dedupKeepFirst ((v :: t).filter (keepNew acc)) := by
            rw [List.filter_cons_of_neg (by simp [hkeep])]

theorem updStep_sentinel (acc : List Str) : updStep acc sentinel = [] := by
  simp [updStep]

theorem mlStep_sentinel (acc : Str) : mlStep acc sentinel = [] := by
  simp [mlStep]

/-- Any occurrence of the sentinel resets `update_list`'s accumulator:
everything before it (the current value included) is discarded. -/
theorem update_list_sentinel_resets_aux (content : List Str) (l₁ l₂ : List Str) :
    update_list content (l₁ ++ sentinel :: l₂) = update_list [] l₂ := by
  unfold update_list
  rw [List.foldl_append, List.foldl_cons, updStep_sentinel]

/-- Any occurrence of the sentinel resets `update_multiline_field`'s
accumulated content to the empty string. -/
theorem update_multiline_sentinel_resets_aux (content : Str) (l₁ l₂ : List Str) :
    update_multiline_field content (l₁ ++ sentinel :: l₂) = update_multiline_field [] l₂ := by
  unfold update_multiline_field
  rw [List.foldl_append, List.foldl_cons, mlStep_sentinel]

/-- Python's `s.replace("//", "/")`: scan left to right, replace each
non-overlapping occurrence of `"//"` by `"/"`, continuing the scan after
the replacement (the emitted `"/"` is not rescanned). -/
def collapseSlashes : Str → Str
  | [] => []
  | [c] => [c]
  | c₁ :: c₂ :: t =>
    if c₁ = '/' ∧ c₂ = '/' then '/' :: collapseSlashes t
    else c₁ :: collapseSlashes (c₂ :: t)

/-- The folder-argument normalisation used by the editors and creators
(adaptavist.py lines 374, 682, 756):
`("/" + folder).replace("//", "/") if folder else folder or None`.
An argument of `None` or of the empty string is falsy and yields `None`
(the service's write-side representation of the root folder). -/
def normFolderArg : Option Str → Option Str
  | none => none
  | some f => if f = [] then none else some (collapseSlashes ('/' :: f))

theorem collapseSlashes_ne_nil (c : Char) (t : Str) : collapseSlashes (c :: t) ≠ [] := by
  match t with
  | [] => simp [collapseSlashes]
  | c₂ :: t' =>
    simp only [collapseSlashes]
    split <;> simp

/-- A string with no doubled slash is left unchanged by
`collapseSlashes`. -/
theorem collapseSlashes_of_no_doubled (s : Str) (h : ¬ ['/', '/'] <:+: s) :
    collapseSlashes s = s := by
  induction s using collapseSlashes.induct with
  | case1 => rfl
  | case2 c => rfl
  | case3 c₁ c₂ t hds ih =>
    exact absurd ⟨[], t, by rw [hds.1, hds.2]; rfl⟩ h
  | case4 c₁ c₂ t hds ih =>
    rw [collapseSlashes, if_neg hds, ih]
    intro hinf
    rcases hinf with ⟨s', t', he⟩
    exact h ⟨c₁ :: s', t', by rw [← he]; simp⟩

/-- Python's `"<br>".join(values)`. -/
def brJoin : List Str → Str
  | [] => []
  | [v] => v
  | v :: rest => v ++ brSep ++ brJoin rest

/-- Models `list(set(new_values) - set(current_values))` from
_helper.py line 43.  CPython's set iteration order is unspecified
(hash-dependent); it is modelled here as first-occurrence order.  No
theorem below depends on that choice of order. -/
def pySetDiff (new_values current_values : List Str) : List Str :=
  dedupKeepFirst (new_values.filter (fun v => v ∉ current_values))

/-- `update_field` from _helper.py lines 37-45, returning the value it
records under `key` in `request_data` (`none` when nothing is
recorded). -/
def Helper.update_field (current_values new_values : List Str) : Option (List Str) :=
  if new_values.head? = some sentinel ∧ current_values ≠ new_values.tail then
    some new_values.tail
  else if current_values ≠ current_values ++ pySetDiff new_values current_values then
    some (current_values ++ pySetDiff new_values current_values)
  else none

/-- `update_multiline_field` from _helper.py lines 48-55, returning the
value it records under `customFields[key]` (`none` when nothing is
recorded).  Note that the joined value is built from the filtered new
values only: the current content is *not* part of the recorded string,
and the substring filter tests against the fixed base content, not
against the accumulated result. -/
def Helper.update_multiline_field (current_content : Str) (new_values : List Str) : Option Str :=
  let base : Str := if new_values.head? = some sentinel then [] else current_content
  let vals := if new_values.head? = some sentinel then new_values.tail else new_values
  let combined := brJoin (vals.filter (fun v => ¬ v <:+: base))
  if current_content ≠ combined then some combined else none

/-- The pagination loop shared by `get_users`, `get_test_cases`,
`get_test_plans` and `get_test_runs` (adaptavist.py lines 304-327):
starting at offset 0, fetch a page; stop on a failed request (`none`,
the loop's `break` on a transport error) or on an empty page; otherwise
append the items in order and advance the offset by the page length.
The Python `while True:` loop is modelled with an explicit fuel bound on
the number of iterations; theorems supply enough fuel to reach the
stopping page. -/
def fetchPages {α : Type} (fetch : Nat → Option (List α)) : Nat → Nat → List α → List α
  | 0, _, acc => acc
  | fuel + 1, i, acc =>
    match fetch i with
    | none => acc
    | some [] => acc
    | some page => fetchPages fetch fuel (i + page.length) (acc ++ page)

/-- `get_test_cases` (adaptavist.py lines 304-327) as an instance of the
pagination loop: offset starts at 0, accumulator starts empty. -/
def get_test_cases {α : Type} (fetch : Nat → Option (List α)) (fuel : Nat) : List α :=
  fetchPages fetch fuel 0 []

theorem fetchPages_failed {α : Type} (fetch : Nat → Option (List α)) (fuel i : Nat)
    (acc : List α) (h : fetch i = none) : fetchPages fetch (fuel + 1) i acc = acc := by
  simp [fetchPages, h]

theorem fetchPages_emptyPage {α : Type} (fetch : Nat → Option (List α)) (fuel i : Nat)
    (acc : List α) (h : fetch i = some []) : fetchPages fetch (fuel + 1) i acc = acc := by
  simp [fetchPages, h]

theorem fetchPages_step {α : Type} (fetch : Nat → Option (List α)) (fuel i : Nat)
    (acc page : List α) (h : fetch i = some page) (hne : page ≠ []) :
    fetchPages fetch (fuel + 1) i acc = fetchPages fetch fuel (i + page.length) (acc ++ page) := by
  match page, hne with
  | a :: t, _ => simp [fetchPages, h]

/-- Snapshot of a test case as fetched by `edit_test_case` — the fields
the editor reads; a `none` field models an absent key in the JSON
response (an empty response body yields the all-`none` snapshot). -/
structure TcResp where
  projectKey : Option Str
  folder : Option Str
  labels : Option (List Str)
  ciServerUrl : Option Str
  codeBaseUrl : Option Str
deriving DecidableEq

/-- Arguments of `edit_test_case`.  `folder` is tri-state, mirroring the
`keep_original_value` marker of lines 347-349: `none` models a call
without the keyword, `some none` models `folder=None` or `folder=""`
(move to root; the empty string is falsy and normalises to `None`), and
`some (some s)` an explicit folder string. -/
structure TcArgs where
  folder : Option (Option Str)
  labels : List Str
  buildUrls : List Str
  codeBases : List Str
deriving DecidableEq

/-- The one-key dictionary stored under `customFields` in the patch.
`request_data.update` replaces the whole dictionary, so the second
custom-field update (lines 392-395) overwrites the first (lines
387-390) rather than merging with it. -/
structure CfPatch where
  ciServerUrl : Option Str
  codeBaseUrl : Option Str
deriving DecidableEq

/-- The `request_data` patch of `edit_test_case`; a `none` field models
an absent key.  `folder` is doubly optional because the written folder
value may itself be `null` (an explicit move to root). -/
structure TcPatch where
  folder : Option (Option Str)
  labels : Option (List Str)
  customFields : Option CfPatch
deriving DecidableEq

def emptyTcPatch : TcPatch := ⟨none, none, none⟩

/-- A mutating remote call an editor performs after its initial fetch,
parametrised by the PUT body type. -/
inductive Call (π : Type) where
  | createFolder (projectKey : Option Str) (folderType : Str) (folderName : Str)
  | put (data : π)
deriving DecidableEq

/-- Environment for one `edit_test_case` run: the outcome of the
initial GET (`none` models a raised transport/HTTP error), the listing
`get_folders` returns, and the outcome of the PUT. -/
structure TcEnv where
  fetch : Option TcResp
  folders : List Str
  putOk : Bool
deriving DecidableEq

/-- Python truthiness of the folder value in
`if folder and folder not in self.get_folders(...)`: `None` and the
empty string are falsy. -/
def folderTruthy : Option Str → Bool
  | none => false
  | some f => decide (f ≠ [])

def tcFolderType : Str := "TEST_CASE".toList

def tpFolderType : Str := "TEST_PLAN".toList

/-- The reconciled folder value of `edit_test_case` (line 374): keep
the fetched value when the argument was not passed, otherwise normalise
the argument. -/
def tcFolder (resp : TcResp) (argFolder : Option (Option Str)) : Option Str :=
  match argFolder with
  | none => resp.folder
  | some f => normFolderArg f

/-- The `request_data` patch `edit_test_case` builds (lines 372-395):
folder if it differs from the fetched one, reconciled labels if they
differ, and the last changed custom field (the `customFields` key is
replaced wholly by each update). -/
def tcPatchOf (resp : TcResp) (args : TcArgs) : TcPatch :=
  let folder := tcFolder resp args.folder
  let fPatch : Option (Option Str) := if folder ≠ resp.folder then some folder else none
  let curLabels := resp.labels.getD []
  let newLabels := update_list curLabels args.labels
  let lPatch : Option (List Str) := if newLabels ≠ curLabels then some newLabels else none
  let curCi := resp.ciServerUrl.getD []
  let newCi := update_multiline_field curCi args.buildUrls
  let cfCi : Option CfPatch := if newCi ≠ curCi then some ⟨some newCi, none⟩ else none
  let curCb := resp.codeBaseUrl.getD []
  let newCb := update_multiline_field curCb args.codeBases
  let cfPatch : Option CfPatch := if newCb ≠ curCb then some ⟨none, some newCb⟩ else cfCi
  ⟨fPatch, lPatch, cfPatch⟩

/-- `edit_test_case` (adaptavist.py lines 329-417): fetch, reconcile,
create the target folder if a changed folder value is non-null and
missing from the listing, then PUT the patch only if it is non-empty.
Returns the boolean result plus the ordered trace of mutating calls. -/
def editTestCase (env : TcEnv) (args : TcArgs) : Bool × List (Call TcPatch) :=
  match env.fetch with
  | none => (false, [])
  | some resp =>
    let folder := tcFolder resp args.folder
    let folderCalls : List (Call TcPatch) :=
      if folder ≠ resp.folder then
        (if folderTruthy folder ∧ folder.getD [] ∉ env.folders then
          [Call.createFolder resp.projectKey tcFolderType (folder.getD [])]
        else [])
      else []
    let patch := tcPatchOf resp args
    if patch = emptyTcPatch then (true, folderCalls)
    else (env.putOk, folderCalls ++ [Call.put patch])

/-- Snapshot of a test plan as fetched by `edit_test_plan`.
`testRunKeys` models the comprehension
`[test_run["key"] for test_run in response.get("testRuns", [])]`
of line 763 (the key of each run object, absent key giving `[]`). -/
structure TpResp where
  projectKey : Option Str
  folder : Option Str
  testRunKeys : List Str
  issueLinks : Option (List Str)
deriving DecidableEq

/-- Arguments of `edit_test_plan`; `folder` is tri-state as in
`TcArgs`. -/
structure TpArgs where
  folder : Option (Option Str)
  issueLinks : List Str
  testRuns : List Str
deriving DecidableEq

/-- The `request_data` patch of `edit_test_plan` (lines 754-772). -/
structure TpPatch where
  folder : Option (Option Str)
  testRuns : Option (List Str)
  issueLinks : Option (List Str)
deriving DecidableEq

def emptyTpPatch : TpPatch := ⟨none, none, none⟩

/-- Environment for one `edit_test_plan` run. -/
structure TpEnv where
  fetch : Option TpResp
  folders : List Str
  putOk : Bool
deriving DecidableEq

/-- The reconciled folder value of `edit_test_plan` (line 756). -/
def tpFolder (resp : TpResp) (argFolder : Option (Option Str)) : Option Str :=
  match argFolder with
  | none => resp.folder
  | some f => normFolderArg f

/-- The `request_data` patch `edit_test_plan` builds (lines 754-772). -/
def tpPatchOf (resp : TpResp) (args : TpArgs) : TpPatch :=
  let folder := tpFolder resp args.folder
  let fPatch : Option (Option Str) := if folder ≠ resp.folder then some folder else none
  let curRuns := resp.testRunKeys
  let newRuns := update_list curRuns args.testRuns
  let rPatch : Option (List Str) := if newRuns ≠ curRuns then some newRuns else none
  let curLinks := resp.issueLinks.getD []
  let newLinks := update_list curLinks args.issueLinks
  let iPatch : Option (List Str) := if newLinks ≠ curLinks then some newLinks else none
  ⟨fPatch, rPatch, iPatch⟩

/-- `edit_test_plan` (adaptavist.py lines 713-794): same orchestration
as `edit_test_case` with the test-plan fields. -/
def editTestPlan (env : TpEnv) (args : TpArgs) : Bool × List (Call TpPatch) :=
  match env.fetch with
  | none => (false, [])
  | some resp =>
    let folder := tpFolder resp args.folder
    let folderCalls : List (Call TpPatch) :=
      if folder ≠ resp.folder then
        (if folderTruthy folder ∧ folder.getD [] ∉ env.folders then
          [Call.createFolder resp.projectKey tpFolderType (folder.getD [])]
        else [])
      else []
    let patch := tpPatchOf resp args
    if patch = emptyTpPatch then (true, folderCalls)
    else (env.putOk, folderCalls ++ [Call.put patch])

/-- One entry of a test result's `scriptResults` list.  `extraKeys`
stands for all keys other than `index`, `status` and `comment`, which
`edit_test_script_status` strips before the PUT (lines 1477-1479). -/
structure ScriptResult where
  index : Option Int
  status : Option Str
  comment : Option Str
  extraKeys : List Str
deriving DecidableEq

/-- One item of the `GET testrun/…/testresults` response, restricted to
the fields `edit_test_script_status` reads. -/
structure TrItem where
  testCaseKey : Str
  status : Option Str
  scriptResults : List ScriptResult
deriving DecidableEq

/-- The empty dict `{}`: what `get_test_result` yields on failure or
when no item matches; every `get` on it returns its default. -/
def emptyTrItem : TrItem := ⟨[], none, []⟩

/-- `get_test_result` (adaptavist.py lines 1212-1252): a transport or
HTTP failure of the underlying GET is caught and yields `{}` (modelled
by `fetch = none`), as does a response with no item for the key. -/
def get_test_result (fetch : Option (List TrItem)) (testCaseKey : Str) : TrItem :=
  match fetch with
  | none => emptyTrItem
  | some items => (items.find? (fun it => it.testCaseKey == testCaseKey)).getD emptyTrItem

/-- The per-entry sanitise-and-update loop of `edit_test_script_status`
(lines 1475-1485): keep only `index`, `status`, `comment`; on the entry
whose index equals `step - 1`, overwrite the status and, when a comment
was given, the comment. -/
def updateScriptResult (step : Int) (status : Str) (comment : Option Str)
    (sr : ScriptResult) : ScriptResult :=
  let kept : ScriptResult := ⟨sr.index, sr.status, sr.comment, []⟩
  if kept.index = some (step - 1) then
    ⟨kept.index, some status,
      (match comment with | some c => some c | none => kept.comment), []⟩
  else kept

/-- The body `edit_test_script_status` PUTs (lines 1489-1493). -/
structure TrPutData where
  environment : Option Str
  executedBy : Str
  status : Option Str
  scriptResults : List ScriptResult
deriving DecidableEq

/-- Environment for one `edit_test_script_status` run: the outcome of
`get_test_result`'s GET, the executor name, and the PUT outcome as the
id the service returns (`none` models a failed PUT). -/
structure TrEnv where
  fetch : Option (List TrItem)
  executor : Str
  putResult : Option Int
deriving DecidableEq

/-- Arguments of `edit_test_script_status`. -/
structure TrArgs where
  testCaseKey : Str
  step : Int
  status : Str
  comment : Option Str
  environment : Option Str
deriving DecidableEq

/-- The single kind of mutating call `edit_test_script_status` makes. -/
inductive TrCall where
  | put (data : TrPutData)
deriving DecidableEq

/-- `edit_test_script_status` (adaptavist.py lines 1444-1511): the
snapshot comes from `get_test_result`, which converts failures into the
empty result, and the PUT is then performed unconditionally; the
returned id is `none` exactly when the PUT fails. -/
def editTestScriptStatus (env : TrEnv) (args : TrArgs) : Option Int × List TrCall :=
  let tr := get_test_result env.fetch args.testCaseKey
  let srs := tr.scriptResults.map (updateScriptResult args.step args.status args.comment)
  let data : TrPutData := ⟨args.environment, env.executor, tr.status, srs⟩
  (env.putResult, [TrCall.put data])

theorem isInfix_nil (x : Str) : x <:+: ([] : Str) ↔ x = [] := by
  constructor
  · rintro ⟨s, t, h⟩
    simp only [List.append_eq_nil] at h
    exact h.1.2
  · rintro rfl
    exact ⟨[], [], rfl⟩

/-- A sentinel-free delta keeps every non-empty value not already
present, all in delta order (shared closed form for `update_list`). -/
theorem update_list_additive_closed (current delta : List Str) (h : sentinel ∉ delta) :
    update_list current delta
      = current ++ dedupKeepFirst (delta.filter (keepNew current)) :=
  foldl_updStep_eq delta current h

/-- A clean replacement delta (duplicate-free tail without empty strings
or further sentinels) makes `update_list` return the tail verbatim. -/
theorem update_list_clean_replacement (current rest : List Str)
    (h1 : rest.Nodup) (h2 : ([] : Str) ∉ rest) (h3 : sentinel ∉ rest) :
    update_list current (sentinel :: rest) = rest := by
  have hreset := update_list_sentinel_resets_aux current [] rest
  simp only [List.nil_append] at hreset
  rw [hreset, update_list_additive_closed [] rest h3]
  have hfil : rest.filter (keepNew []) = rest := by
    refine List.filter_eq_self.mpr (fun v hv => ?_)
    simp only [keepNew, List.not_mem_nil, not_false_iff, and_true,
      ne_eq, decide_eq_true_eq]
    exact fun hnil => h2 (hnil ▸ hv)
  rw [hfil, dedupKeepFirst_of_nodup rest h1, List.nil_append]

/-- C1 (counterexample): the list reconciler does not return the
replacement tail verbatim — after the sentinel it still skips empty
strings and drops duplicates, so `update_list([], ["-","","x","x"])`
yields `["x"]`, not `["","x","x"]`. -/
theorem update_list_replacement_not_verbatim :
    update_list [] [sentinel, ([] : Str), "x".toList, "x".toList] = ["x".toList]
      ∧ ["x".toList] ≠ [([] : Str), "x".toList, "x".toList] := by
  constructor
  · decide
  · decide

/-- C1 (amended): `update_list(current, ["-"] ++ rest)` ignores
`current` entirely, but then processes `rest` by the ordinary additive
rules (empty strings skipped, duplicates dropped, a later sentinel
clearing again): it equals `update_list([], rest)`, and equals `rest`
verbatim exactly when `rest` is duplicate-free with no empty strings
and no further sentinel. -/
theorem update_list_replacement_ignores_current :
    ∀ current rest : List Str,
      update_list current (sentinel :: rest) = update_list [] rest
        ∧ (rest.Nodup → ([] : Str) ∉ rest → sentinel ∉ rest →
            update_list current (sentinel :: rest) = rest) := by
  intro current rest
  constructor
  · have hreset := update_list_sentinel_resets_aux current [] rest
    simpa using hreset
  · intro h1 h2 h3
    exact update_list_clean_replacement current rest h1 h2 h3

/-- C1 (witness): the amended statement at a concrete input. -/
theorem update_list_replacement_ignores_current_witness :
    update_list ["a".toList] (sentinel :: ["b".toList, "c".toList])
      = ["b".toList, "c".toList] :=
  (update_list_replacement_ignores_current ["a".toList] ["b".toList, "c".toList]).2
    (by decide) (by decide) (by decide)

/-- C2 (counterexample): an additive delta consisting of the single
empty string is dropped, not appended: `update_list([], [""])` is `[]`,
not `[""]` as the claim's description requires. -/
theorem update_list_additive_drops_empty :
    update_list [] [([] : Str)] = [] ∧ ([] : List Str) ≠ [([] : Str)] := by
  constructor
  · decide
  · decide

/-- C2 (amended): for a delta containing no sentinel at any position,
`update_list(current, delta)` is `current` followed by exactly the
non-empty elements of `delta` not already in `current`, one occurrence
each (first occurrences, in delta order, hence a sublist of `delta`),
with no duplicates introduced. -/
theorem update_list_additive_merge :
    ∀ current delta : List Str, sentinel ∉ delta →
      update_list current delta
          = current ++ dedupKeepFirst (delta.filter (keepNew current))
        ∧ (dedupKeepFirst (delta.filter (keepNew current))).Nodup
        ∧ (∀ v, v ∈ dedupKeepFirst (delta.filter (keepNew current))
              ↔ v ∈ delta ∧ v ≠ [] ∧ v ∉ current)
        ∧ List.Sublist (dedupKeepFirst (delta.filter (keepNew current))) delta := by
  intro current delta h
  refine ⟨update_list_additive_closed current delta h, dedupKeepFirst_nodup _, ?_, ?_⟩
  · intro v
    rw [dedupKeepFirst_mem, List.mem_filter]
    simp [keepNew]
  · exact (dedupKeepFirst_sublist _).trans (List.filter_sublist delta)

/-- C2 (witness): the amended statement at a concrete input. -/
theorem update_list_additive_merge_witness :
    update_list ["a".toList] ["b".toList, "a".toList, "b".toList, ([] : Str)]
      = ["a".toList] ++ dedupKeepFirst
          ((["b".toList, "a".toList, "b".toList, ([] : Str)]).filter (keepNew ["a".toList])) :=
  (update_list_additive_merge ["a".toList]
    ["b".toList, "a".toList, "b".toList, ([] : Str)] (by decide)).1

/-- C3 (counterexample): a sentinel in a non-first position is *not*
treated as an ordinary value: `update_list(["a"], ["b","-"])` is `[]`,
whereas the ordinary value `"c"` in the same position is appended. -/
theorem sentinel_not_only_first_position :
    update_list ["a".toList] ["b".toList, sentinel] = []
      ∧ update_list ["a".toList] ["b".toList, "c".toList]
          = ["a".toList, "b".toList, "c".toList] := by
  constructor
  · decide
  · decide

/-- C3 (amended): in both reconcilers every occurrence of the sentinel,
at any position, clears the content accumulated so far, so the result
of a delta containing a sentinel is that of processing the part after
that sentinel from an empty base. -/
theorem sentinel_clears_at_any_position :
    ∀ (content : List Str) (mcontent : Str) (l₁ l₂ : List Str),
      update_list content (l₁ ++ sentinel :: l₂) = update_list [] l₂
        ∧ update_multiline_field mcontent (l₁ ++ sentinel :: l₂)
            = update_multiline_field [] l₂ := by
  intro content mcontent l₁ l₂
  exact ⟨update_list_sentinel_resets_aux content l₁ l₂,
    update_multiline_sentinel_resets_aux mcontent l₁ l₂⟩

theorem mlStep_skip (acc v : Str) (hv : v ≠ sentinel) (h : v = [] ∨ v <:+: acc) :
    mlStep acc v = acc := by
  simp only [mlStep, if_neg hv]
  rcases h with h | h
  · subst h; simp
  · simp [h]

theorem mlStep_appends (acc v : Str) (hv : v ≠ sentinel) (hne : v ≠ [])
    (hni : ¬ v <:+: acc) (hacc : acc ≠ []) : mlStep acc v = acc ++ brSep ++ v := by
  simp [mlStep, hv, hne, hni, hacc]

/-- C4: the multiline reconciler always skips empty entries; never
appends an entry already occurring as a substring of the content
accumulated so far; `["-","x"]` discards the current content and yields
exactly `"x"`; and a genuinely new entry is separated from non-empty
accumulated content by `"<br>"`. -/
theorem update_multiline_field_spec :
    (∀ (c : Str) (vs₁ vs₂ : List Str),
        update_multiline_field c (vs₁ ++ ([] : Str) :: vs₂)
          = update_multiline_field c (vs₁ ++ vs₂))
      ∧ (∀ (c v : Str) (vs₁ vs₂ : List Str), v ≠ sentinel →
          v <:+: update_multiline_field c vs₁ →
          update_multiline_field c (vs₁ ++ v :: vs₂)
            = update_multiline_field c (vs₁ ++ vs₂))
      ∧ (∀ c : Str, update_multiline_field c [sentinel, "x".toList] = "x".toList)
      ∧ (∀ (c v : Str) (vs₁ : List Str), v ≠ sentinel → v ≠ [] →
          ¬ v <:+: update_multiline_field c vs₁ →
          update_multiline_field c vs₁ ≠ [] →
          update_multiline_field c (vs₁ ++ [v])
            = update_multiline_field c vs₁ ++ brSep ++ v) := by
  refine ⟨?_, ?_, ?_, ?_⟩
  · intro c vs₁ vs₂
    unfold update_multiline_field
    rw [List.foldl_append, List.foldl_append, List.foldl_cons,
      mlStep_skip _ _ (by decide) (Or.inl rfl)]
  · intro c v vs₁ vs₂ hv hinf
    unfold update_multiline_field at hinf ⊢
    rw [List.foldl_append, List.foldl_append, List.foldl_cons,
      mlStep_skip _ _ hv (Or.inr hinf)]
  · intro c
    unfold update_multiline_field
    rw [List.foldl_cons, mlStep_sentinel, List.foldl_cons, List.foldl_nil]
    decide
  · intro c v vs₁ hv hne hni hacc
    unfold update_multiline_field at hni hacc ⊢
    rw [List.foldl_append, List.foldl_cons, List.foldl_nil,
      mlStep_appends _ _ hv hne hni hacc]

/-- C4 (witness): the substring-dedup, skip-empty, replacement and
separator statements at concrete inputs. -/
theorem update_multiline_field_spec_witness :
    (update_multiline_field "ab".toList (["b".toList] ++ "b".toList :: ["c".toList])
        = update_multiline_field "ab".toList (["b".toList] ++ ["c".toList]))
      ∧ update_multiline_field "a".toList [sentinel, "x".toList] = "x".toList
      ∧ update_multiline_field "a".toList ([] ++ ["b".toList])
          = "a".toList ++ brSep ++ "b".toList := by
  refine ⟨?_, ?_, ?_⟩
  · exact update_multiline_field_spec.2.1 "ab".toList "b".toList ["b".toList]
      ["c".toList] (by decide) (by decide)
  · exact update_multiline_field_spec.2.2.1 "a".toList
  · exact update_multiline_field_spec.2.2.2 "a".toList "b".toList []
      (by decide) (by decide) (by decide) (by decide)

/-- C5 (counterexample): `edit_test_script_status` does not terminate
without writing when its fetch fails: with the GET failing,
`get_test_result` yields the empty snapshot and the PUT is still
attempted (and the service id is still returned). -/
theorem edit_test_script_status_writes_after_failed_fetch :
    (editTestScriptStatus ⟨none, [], some 1⟩
        ⟨"T1".toList, 1, "Fail".toList, none, none⟩).2
      = [TrCall.put ⟨none, [], none, []⟩]
    ∧ (editTestScriptStatus ⟨none, [], some 1⟩
        ⟨"T1".toList, 1, "Fail".toList, none, none⟩).1 = some 1 := by
  constructor
  · rfl
  · rfl

/-- C5 (amended): when the initial fetch fails, `edit_test_case` and
`edit_test_plan` terminate immediately with `False` and perform no
mutating call; `edit_test_script_status` however swallows the failure
(its fetch yields the empty snapshot) and performs the PUT with an
empty script-result list regardless. -/
theorem edit_fetch_failure_behaviour :
    (∀ (env : TcEnv) (args : TcArgs), env.fetch = none →
        editTestCase env args = (false, []))
    ∧ (∀ (env : TpEnv) (args : TpArgs), env.fetch = none →
        editTestPlan env args = (false, []))
    ∧ (∀ (env : TrEnv) (args : TrArgs), env.fetch = none →
        (editTestScriptStatus env args).2
          = [TrCall.put ⟨args.environment, env.executor, none, []⟩]) := by
  refine ⟨?_, ?_, ?_⟩
  · intro env args h
    simp [editTestCase, h]
  · intro env args h
    simp [editTestPlan, h]
  · intro env args h
    simp [editTestScriptStatus, get_test_result, h, emptyTrItem]

/-- C5 (witness): the amended statement at concrete inputs. -/
theorem edit_fetch_failure_behaviour_witness :
    editTestCase ⟨none, [], true⟩ ⟨none, [], [], []⟩ = (false, [])
    ∧ editTestPlan ⟨none, [], true⟩ ⟨none, [], []⟩ = (false, [])
    ∧ (editTestScriptStatus ⟨none, [], none⟩
        ⟨"T".toList, 1, "Pass".toList, none, none⟩).2
      = [TrCall.put ⟨none, [], none, []⟩] := by
  refine ⟨?_, ?_, ?_⟩
  · exact edit_fetch_failure_behaviour.1 ⟨none, [], true⟩ ⟨none, [], [], []⟩ rfl
  · exact edit_fetch_failure_behaviour.2.1 ⟨none, [], true⟩ ⟨none, [], []⟩ rfl
  · exact edit_fetch_failure_behaviour.2.2 ⟨none, [], none⟩
      ⟨"T".toList, 1, "Pass".toList, none, none⟩ rfl

theorem editTestCase_empty_patch_aux (env : TcEnv) (args : TcArgs) (resp : TcResp)
    (hf : env.fetch = some resp) (hp : tcPatchOf resp args = emptyTcPatch) :
    editTestCase env args = (true, []) := by
  have hfol : tcFolder resp args.folder = resp.folder := by
    by_contra hne
    have h1 := congrArg TcPatch.folder hp
    simp only [tcPatchOf, emptyTcPatch] at h1
    rw [if_pos hne] at h1
    exact Option.noConfusion h1
  simp only [editTestCase, hf]
  rw [if_neg (not_not_intro hfol), if_pos hp]

theorem editTestPlan_empty_patch_aux (env : TpEnv) (args : TpArgs) (resp : TpResp)
    (hf : env.fetch = some resp) (hp : tpPatchOf resp args = emptyTpPatch) :
    editTestPlan env args = (true, []) := by
  have hfol : tpFolder resp args.folder = resp.folder := by
    by_contra hne
    have h1 := congrArg TpPatch.folder hp
    simp only [tpPatchOf, emptyTpPatch] at h1
    rw [if_pos hne] at h1
    exact Option.noConfusion h1
  simp only [editTestPlan, hf]
  rw [if_neg (not_not_intro hfol), if_pos hp]

theorem tcPatchOf_no_deltas (resp : TcResp) :
    tcPatchOf resp ⟨none, [], [], []⟩ = emptyTcPatch := by
  simp [tcPatchOf, tcFolder, update_list, update_multiline_field, emptyTcPatch]

/-- C6: an edit whose reconciled patch is empty performs no mutating
remote call and reports success; in particular `edit_test_case` with no
deltas supplied is such a no-op for every fetched snapshot. -/
theorem edit_empty_patch_is_noop :
    (∀ (env : TcEnv) (args : TcArgs) (resp : TcResp), env.fetch = some resp →
        tcPatchOf resp args = emptyTcPatch → editTestCase env args = (true, []))
    ∧ (∀ (env : TpEnv) (args : TpArgs) (resp : TpResp), env.fetch = some resp →
        tpPatchOf resp args = emptyTpPatch → editTestPlan env args = (true, []))
    ∧ (∀ (env : TcEnv) (resp : TcResp), env.fetch = some resp →
        editTestCase env ⟨none, [], [], []⟩ = (true, [])) := by
  refine ⟨editTestCase_empty_patch_aux, editTestPlan_empty_patch_aux, ?_⟩
  intro env resp hf
  exact editTestCase_empty_patch_aux env _ resp hf (tcPatchOf_no_deltas resp)

/-- C6 (witness): the no-op statement at concrete inputs. -/
theorem edit_empty_patch_is_noop_witness :
    editTestCase ⟨some ⟨none, none, none, none, none⟩, [], true⟩ ⟨none, [], [], []⟩
        = (true, [])
    ∧ editTestPlan ⟨some ⟨none, none, [], none⟩, [], true⟩ ⟨none, [], []⟩
        = (true, []) := by
  constructor
  · exact edit_empty_patch_is_noop.2.2 ⟨some ⟨none, none, none, none, none⟩, [], true⟩
      ⟨none, none, none, none, none⟩ rfl
  · exact edit_empty_patch_is_noop.2.1 ⟨some ⟨none, none, [], none⟩, [], true⟩
      ⟨none, [], []⟩ ⟨none, none, [], none⟩ rfl (by decide)

/-- C7: the pagination loop starts at offset 0, advances the offset by
the length of the page just returned, concatenates pages in order,
stops at the first empty page, treats a failed page fetch exactly like
an empty page, and on pages `[a,b]`, `[c]`, `[]` at offsets `0,2,3`
returns `[a,b,c]`. -/
theorem get_test_cases_pagination :
    (∀ (α : Type) (fetch : Nat → Option (List α)) (fuel i : Nat) (acc : List α),
        fetch i = none → fetchPages fetch (fuel + 1) i acc = acc)
    ∧ (∀ (α : Type) (fetch : Nat → Option (List α)) (fuel i : Nat) (acc : List α),
        fetch i = some [] → fetchPages fetch (fuel + 1) i acc = acc)
    ∧ (∀ (α : Type) (fetch : Nat → Option (List α)) (fuel i : Nat) (acc page : List α),
        fetch i = some page → page ≠ [] →
        fetchPages fetch (fuel + 1) i acc
          = fetchPages fetch fuel (i + page.length) (acc ++ page))
    ∧ (∀ a b c : Nat,
        get_test_cases (fun i => if i = 0 then some [a, b] else if i = 2 then some [c]
          else if i = 3 then some [] else none) 3 = [a, b, c]) := by
  refine ⟨?_, ?_, ?_, ?_⟩
  · intro α fetch fuel i acc h
    exact @fetchPages_failed α fetch fuel i acc h
  · intro α fetch fuel i acc h
    exact @fetchPages_emptyPage α fetch fuel i acc h
  · intro α fetch fuel i acc page h hne
    exact @fetchPages_step α fetch fuel i acc page h hne
  · intro a b c
    rfl

/-- C7 (witness): the loop laws applied at concrete pages. -/
theorem get_test_cases_pagination_witness :
    fetchPages (fun _ => (none : Option (List Nat))) 1 0 [] = []
    ∧ fetchPages (fun _ => some ([] : List Nat)) 1 5 [9] = [9]
    ∧ fetchPages (fun _ => some [5]) 1 0 ([] : List Nat)
        = fetchPages (fun _ => some [5]) 0 (0 + 1) ([] ++ [5]) := by
  refine ⟨?_, ?_, ?_⟩
  · exact get_test_cases_pagination.1 Nat (fun _ => none) 0 0 [] rfl
  · exact get_test_cases_pagination.2.1 Nat (fun _ => some []) 0 5 [9] rfl
  · exact get_test_cases_pagination.2.2.1 Nat (fun _ => some [5]) 0 0 [] [5] rfl
      (by decide)

/-- C8 (counterexample): the folder-argument normalisation maps the
empty string to `None` (the absent, write-side root value), not to the
string `"/"`. -/
theorem normFolderArg_empty_not_root_slash :
    normFolderArg (some ([] : Str)) = none
      ∧ normFolderArg (some ([] : Str)) ≠ some "/".toList := by
  constructor
  · rfl
  · decide

/-- C8 (amended): the folder-argument normalisation maps the empty
string (and `None`) to the absent value `None`, maps `"Test folder"` to
`"/Test folder"`, and returns any non-empty path that already starts
with `/` and contains no doubled slash unchanged (idempotence on
already-normalised paths such as `"/Test folder"`). -/
theorem normFolderArg_spec :
    normFolderArg (some ([] : Str)) = none
    ∧ normFolderArg none = none
    ∧ normFolderArg (some "Test folder".toList) = some "/Test folder".toList
    ∧ (∀ s : Str, s.head? = some '/' → ¬ ['/', '/'] <:+: s →
        normFolderArg (some s) = some s) := by
  refine ⟨rfl, rfl, by decide, ?_⟩
  intro s h1 h2
  match s, h1 with
  | c :: t, h1 =>
    have hc : c = '/' := by simpa using h1
    subst hc
    have h2t : ¬ ['/', '/'] <:+: t := by
      intro hinf
      rcases hinf with ⟨s', t', he⟩
      exact h2 ⟨'/' :: s', t', by rw [← he]; simp⟩
    simp only [normFolderArg, if_neg (by simp : ¬('/' :: t : Str) = [])]
    rw [show collapseSlashes ('/' :: '/' :: t) = '/' :: collapseSlashes t by
      simp [collapseSlashes]]
    rw [collapseSlashes_of_no_doubled t h2t]

/-- C8 (witness): idempotence applied at the already-normalised path
`"/Test folder"`. -/
theorem normFolderArg_spec_witness :
    normFolderArg (some "/Test folder".toList) = some "/Test folder".toList :=
  normFolderArg_spec.2.2.2 "/Test folder".toList (by decide) (by decide)

/-- C9 (counterexample): a folder argument that is explicitly given and
absent from the known-folder listing does *not* always trigger a
create-folder call: when it normalises to the entity's current folder
the whole folder branch is skipped and no mutating call occurs. -/
theorem edit_test_case_folder_given_without_create :
    (editTestCase ⟨some ⟨some "P".toList, some "/X".toList, none, none, none⟩, [], true⟩
        ⟨some (some "X".toList), [], [], []⟩).2 = []
    ∧ normFolderArg (some "X".toList) = some "/X".toList
    ∧ "/X".toList ∉ ([] : List Str) := by
  refine ⟨rfl, rfl, by decide⟩

/-- C9 (amended): when a folder argument is explicitly given with a
non-empty value whose normalised path differs from the entity's current
folder and is not contained in the known-folder listing, the edit makes
exactly one create-folder call, and it precedes the single PUT, whose
patch carries the normalised folder as its new folder value. -/
theorem edit_test_case_folder_move_creates_once :
    ∀ (env : TcEnv) (args : TcArgs) (resp : TcResp) (f : Str),
      env.fetch = some resp → args.folder = some (some f) → f ≠ [] →
      some (collapseSlashes ('/' :: f)) ≠ resp.folder →
      collapseSlashes ('/' :: f) ∉ env.folders →
      (editTestCase env args).2
          = [Call.createFolder resp.projectKey tcFolderType (collapseSlashes ('/' :: f)),
             Call.put (tcPatchOf resp args)]
        ∧ (tcPatchOf resp args).folder = some (some (collapseSlashes ('/' :: f))) := by
  intro env args resp f hf hargs hfne hdiff hnotin
  have hnf : tcFolder resp args.folder = some (collapseSlashes ('/' :: f)) := by
    simp [tcFolder, hargs, normFolderArg, hfne]
  have hpf : (tcPatchOf resp args).folder = some (some (collapseSlashes ('/' :: f))) := by
    simp only [tcPatchOf]
    rw [hnf, if_pos hdiff]
  refine ⟨?_, hpf⟩
  have hpe : tcPatchOf resp args ≠ emptyTcPatch := by
    intro he
    rw [he] at hpf
    exact Option.noConfusion hpf
  have htru : folderTruthy (some (collapseSlashes ('/' :: f))) = true := by
    simp [folderTruthy, collapseSlashes_ne_nil '/' f]
  simp only [editTestCase, hf]
  rw [if_neg hpe]
  simp only [hnf, Option.getD_some]
  rw [if_pos hdiff, if_pos ⟨htru, hnotin⟩]
  rfl

/-- C9 (witness): the amended statement at a concrete folder move. -/
theorem edit_test_case_folder_move_creates_once_witness :
    (editTestCase ⟨some ⟨some "P".toList, some "/Old".toList, none, none, none⟩, [], true⟩
        ⟨some (some "X".toList), [], [], []⟩).2
      = [Call.createFolder (some "P".toList) tcFolderType (collapseSlashes ('/' :: "X".toList)),
         Call.put (tcPatchOf ⟨some "P".toList, some "/Old".toList, none, none, none⟩
           ⟨some (some "X".toList), [], [], []⟩)] :=
  (edit_test_case_folder_move_creates_once
    ⟨some ⟨some "P".toList, some "/Old".toList, none, none, none⟩, [], true⟩
    ⟨some (some "X".toList), [], [], []⟩
    ⟨some "P".toList, some "/Old".toList, none, none, none⟩
    "X".toList rfl rfl (by decide) (by decide) (by decide)).1

/-- C10 (counterexample): the `_helper` reconcilers do not compute the
same values as the ones the editors use: `update_field` records the
replacement tail verbatim (keeping the empty string) where
`update_list` drops it, and `_helper.update_multiline_field` records
only the new values, dropping the current content that
`update_multiline_field` keeps. -/
theorem helper_reconcilers_differ :
    Helper.update_field [] [sentinel, ([] : Str)] = some [([] : Str)]
    ∧ update_list [] [sentinel, ([] : Str)] = []
    ∧ ([([] : Str)] ≠ ([] : List Str))
    ∧ Helper.update_multiline_field "a".toList ["b".toList] = some "b".toList
    ∧ update_multiline_field "a".toList ["b".toList] = "a<br>b".toList
    ∧ "b".toList ≠ "a<br>b".toList := by
  refine ⟨by decide, by decide, by decide, by decide, by decide, by decide⟩

/-- C10 (amended): the two implementations disagree in general, but
agree on clean sentinel-led replacements: for a replacement tail that
is duplicate-free with no empty strings and no further sentinel and
differs from the current value, `update_field` records exactly the tail
that `update_list` returns; and for the delta `["-", x]` with `x`
non-empty, not the sentinel and different from the current content,
`_helper.update_multiline_field` records exactly the string
`update_multiline_field` returns. -/
theorem helper_reconcilers_agree_on_clean_replacement :
    (∀ current rest : List Str, rest.Nodup → ([] : Str) ∉ rest → sentinel ∉ rest →
        current ≠ rest →
        Helper.update_field current (sentinel :: rest) = some rest
          ∧ update_list current (sentinel :: rest) = rest)
    ∧ (∀ current x : Str, x ≠ [] → x ≠ sentinel → current ≠ x →
        Helper.update_multiline_field current [sentinel, x] = some x
          ∧ update_multiline_field current [sentinel, x] = x) := by
  constructor
  · intro current rest h1 h2 h3 hcur
    constructor
    · simp [Helper.update_field, hcur]
    · exact update_list_clean_replacement current rest h1 h2 h3
  · intro current x hx hxs hcx
    constructor
    · have hfil : ¬ x <:+: ([] : Str) := fun h => hx ((isInfix_nil x).mp h)
      simp only [Helper.update_multiline_field, List.head?_cons, if_pos rfl,
        List.tail_cons, if_true]
      have hfx : [x].filter (fun v => decide (¬ v <:+: ([] : Str))) = [x] := by
        simp [List.filter, hfil]
      rw [hfx]
      have hbj : brJoin [x] = x := rfl
      rw [hbj, if_pos hcx]
    · show (mlStep (mlStep current sentinel) x) = x
      rw [mlStep_sentinel]
      have hfil : ¬ x <:+: ([] : Str) := fun h => hx ((isInfix_nil x).mp h)
      simp [mlStep, hxs, hx, hfil]

/-- C10 (witness): the agreement statement at concrete inputs. -/
theorem helper_reconcilers_agree_witness :
    (Helper.update_field ["a".toList] [sentinel, "b".toList] = some ["b".toList]
        ∧ update_list ["a".toList] [sentinel, "b".toList] = ["b".toList])
    ∧ (Helper.update_multiline_field "a".toList [sentinel, "b".toList] = some "b".toList
        ∧ update_multiline_field "a".toList [sentinel, "b".toList] = "b".toList) := by
  constructor
  · exact helper_reconcilers_agree_on_clean_replacement.1 ["a".toList] ["b".toList]
      (by decide) (by decide) (by decide) (by decide)
  · exact helper_reconcilers_agree_on_clean_replacement.2 "a".toList "b".toList
      (by decide) (by decide) (by decide)
